import Mathlib

/-!
Verification of the rsi-monitor repository against its specification.

The repository has two near-duplicate Python scripts:
  * `value_investment_monitor.py` — indicator library (`calculate_rsi`,
    `calculate_macd`, `calculate_support_resistance`), the opportunity
    classifier (`classify_opportunity`), the market clock
    (`is_market_hours`) and a single-shot evaluation pass (`run_analysis`).
  * `rsi_monitor_github.py` — `calculate_rsi` (identical), `check_rsi_alert`
    and the continuous monitoring loop (`monitor_stocks`).

We shallowly embed the relevant functions.  Prices are exact rationals; the
IEEE-754 special values that the pandas pipeline can produce (NaN from a
missing rolling window or 0/0, +inf from x/0 with x > 0) are modelled by an
explicit extended-value type `PF`, with the IEEE semantics of the exact
operations the code performs.
-/

namespace RsiMonitor

/-! ## Extended values: exact rationals plus IEEE specials -/

/-- A pandas/NumPy float64 cell as the RSI pipeline produces it: an exact
finite rational, positive or negative infinity, or NaN. -/
inductive PF where
  | nan : PF
  | inf : PF
  | ninf : PF
  | fin : ℚ → PF
deriving DecidableEq, Repr

namespace PF

/-- IEEE addition restricted to the values arising here (no inf + (-inf)
subtleties are exercised by the code, but we define them as IEEE does). -/
def add : PF → PF → PF
  | nan, _ => nan
  | _, nan => nan
  | inf, ninf => nan
  | ninf, inf => nan
  | inf, _ => inf
  | _, inf => inf
  | ninf, _ => ninf
  | _, ninf => ninf
  | fin a, fin b => fin (a + b)

/-- IEEE subtraction. -/
def sub : PF → PF → PF
  | nan, _ => nan
  | _, nan => nan
  | inf, inf => nan
  | ninf, ninf => nan
  | inf, _ => inf
  | _, inf => ninf
  | ninf, _ => ninf
  | _, ninf => inf
  | fin a, fin b => fin (a - b)

/-- IEEE division: x/0 is ±inf for x ≠ 0 and NaN for 0/0; finite/inf is 0. -/
def div : PF → PF → PF
  | nan, _ => nan
  | _, nan => nan
  | inf, inf => nan
  | inf, ninf => nan
  | ninf, inf => nan
  | ninf, ninf => nan
  | inf, fin b => if 0 ≤ b then inf else ninf
  | ninf, fin b => if 0 ≤ b then ninf else inf
  | fin _, inf => fin 0
  | fin _, ninf => fin 0
  | fin a, fin b =>
      if b = 0 then (if a = 0 then nan else if 0 < a then inf else ninf)
      else fin (a / b)

/-- IEEE `<`: any comparison with NaN is false. -/
def lt : PF → PF → Bool
  | nan, _ => false
  | _, nan => false
  | inf, _ => false
  | _, inf => true
  | ninf, ninf => false
  | ninf, _ => true
  | _, ninf => false
  | fin a, fin b => decide (a < b)

end PF

/-! ## `calculate_rsi` (identical in both scripts)

```python
delta = prices.diff()
gain = (delta.where(delta > 0, 0)).rolling(window=period).mean()
loss = (-delta.where(delta < 0, 0)).rolling(window=period).mean()
rs = gain / loss
rsi = 100 - (100 / (1 + rs))
return rsi.iloc[-1]
```

`prices.diff()` has NaN at index 0; `delta.where(delta > 0, 0)` replaces
every cell whose condition is not True — including the NaN — by 0, so the
gain/loss series are genuinely finite.  `rolling(window=p).mean()` (default
`min_periods = window`) is NaN at indices `< p − 1` and the exact window
mean elsewhere.  `iloc[-1]` on an empty series raises `IndexError`, which we
model as `none`.
-/

/-- `prices.diff()`: NaN at index 0, then consecutive differences. -/
def deltas (ps : List ℚ) : List PF :=
  match ps with
  | [] => []
  | _ :: _ => PF.nan :: List.zipWith (fun a b => PF.fin (b - a)) ps ps.tail

/-- One cell of `delta.where(delta > 0, 0)`: NaN > 0 is false, so NaN ↦ 0. -/
def gainOf : PF → ℚ
  | PF.fin q => if 0 < q then q else 0
  | _ => 0

/-- One cell of `-delta.where(delta < 0, 0)`. -/
def lossOf : PF → ℚ
  | PF.fin q => if q < 0 then -q else 0
  | _ => 0

def gains (ps : List ℚ) : List ℚ := (deltas ps).map gainOf

def losses (ps : List ℚ) : List ℚ := (deltas ps).map lossOf

/-- The trailing window of length `w` ending at index `i` (inclusive). -/
def windowAt (w : ℕ) (xs : List ℚ) (i : ℕ) : List ℚ :=
  (xs.take (i + 1)).drop (i + 1 - w)

/-- `xs.rolling(window=w).mean()` with the default `min_periods = w`:
NaN until a full window is available, then the exact window mean. -/
def rollingMean (w : ℕ) (xs : List ℚ) : List PF :=
  (List.range xs.length).map fun i =>
    if w ≤ i + 1 then PF.fin ((windowAt w xs i).sum / (w : ℚ)) else PF.nan

/-- The embedded `calculate_rsi`.  Returns `none` exactly when `iloc[-1]`
raises (empty input), otherwise the final cell of the rsi series. -/
def calculate_rsi (ps : List ℚ) (period : ℕ := 14) : Option PF :=
  let gain := rollingMean period (gains ps)
  let loss := rollingMean period (losses ps)
  let rs := List.zipWith PF.div gain loss
  let rsi := rs.map fun r => PF.sub (PF.fin 100) (PF.div (PF.fin 100) (PF.add (PF.fin 1) r))
  rsi.getLast?

/-! ## `calculate_macd` (value_investment_monitor.py)

```python
ema_fast = prices.ewm(span=fast).mean()
ema_slow = prices.ewm(span=slow).mean()
macd_line = ema_fast - ema_slow
signal_line = macd_line.ewm(span=signal).mean()
histogram = macd_line - signal_line
return {'macd': macd_line.iloc[-1], 'signal': signal_line.iloc[-1],
        'histogram': histogram.iloc[-1],
        'crossover': macd_line.iloc[-1] > signal_line.iloc[-1]}
```

pandas `ewm(span=s).mean()` with the default `adjust=True` computes, with
`β = 1 − 2/(s+1)`, the running weighted mean
`y_t = (x_t + β·x_{t−1} + β²·x_{t−2} + …)/(1 + β + β² + …)`; we carry the
numerator and denominator recursively.  All values are finite rationals
for finite input, so no `PF` is needed here. -/

/-- Recursive core of `ewm(span).mean()` with `adjust=True`: `num`/`den`
are the decayed weighted sum and weight of the bars already seen. -/
def ewmAux (β : ℚ) (num den : ℚ) : List ℚ → List ℚ
  | [] => []
  | x :: t =>
      let n := x + β * num
      let d := 1 + β * den
      n / d :: ewmAux β n d t

/-- `xs.ewm(span=s).mean()` with `adjust=True`. -/
def ewmMean (span : ℕ) (xs : List ℚ) : List ℚ :=
  ewmAux (1 - 2 / ((span : ℚ) + 1)) 0 0 xs

structure MacdResult where
  macd : ℚ
  signal : ℚ
  histogram : ℚ
  crossover : Bool
deriving DecidableEq, Repr

/-- The embedded `calculate_macd`; `none` exactly when `iloc[-1]` raises
(empty price series). -/
def calculate_macd (ps : List ℚ) (fast : ℕ := 12) (slow : ℕ := 26)
    (signal : ℕ := 9) : Option MacdResult :=
  let ema_fast := ewmMean fast ps
  let ema_slow := ewmMean slow ps
  let macd_line := List.zipWith (· - ·) ema_fast ema_slow
  let signal_line := ewmMean signal macd_line
  let histogram := List.zipWith (· - ·) macd_line signal_line
  match macd_line.getLast?, signal_line.getLast?, histogram.getLast? with
  | some m, some s, some h => some ⟨m, s, h, decide (s < m)⟩
  | _, _, _ => none

/-! ## `classify_opportunity` (value_investment_monitor.py)

The classifier reads only `rsi`, `macd['crossover']`, `macd['histogram']`,
`performance['3m']` and `support_resistance['near_support']` from the
analysis dict, so the embedded input carries exactly those fields (plus the
`success` flag the guard checks).  The reason strings carry the numeric
values already present in the input, so we embed each reason as a tag. -/

structure Analysis where
  success : Bool
  rsi : ℚ
  macdCrossover : Bool
  macdHistogram : ℚ
  perf3m : ℚ
  nearSupport : Bool
deriving DecidableEq, Repr

/-- The reason strings appended by `classify_opportunity`, in source order:
`"RSI extremadamente bajo"`, `"RSI en sobreventa"`, `"RSI moderadamente
bajo"`, `"MACD cruzando alcista"`, `"MACD iniciando giro alcista"`,
`"Caída significativa 3M"`, `"Corrección moderada 3M"`,
`"Cerca de nivel de soporte"`. -/
inductive Reason where
  | rsiExtremelyLow
  | rsiOversold
  | rsiModeratelyLow
  | macdBullCross
  | macdTurning
  | drop3m
  | correction3m
  | nearSupportLevel
deriving DecidableEq, Repr

/-- The tiers `'🟢 EXCELENTE'`, `'🟡 BUENA'`, `'🔵 MODERADA'`. -/
inductive Level where
  | excelente
  | buena
  | moderada
deriving DecidableEq, Repr

structure Opportunity where
  level : Level
  score : ℕ
  reasons : List Reason
deriving DecidableEq, Repr

/-- The RSI if/elif chain: score delta and appended reason. -/
def rsiBand (rsi : ℚ) : ℕ × List Reason :=
  if rsi < 25 then (3, [.rsiExtremelyLow])
  else if rsi < 30 then (2, [.rsiOversold])
  else if rsi < 40 then (1, [.rsiModeratelyLow])
  else (0, [])

/-- The MACD if/elif chain. -/
def macdBand (crossover : Bool) (histogram : ℚ) : ℕ × List Reason :=
  if crossover && decide (0 < histogram) then (2, [.macdBullCross])
  else if crossover then (1, [.macdTurning])
  else (0, [])

/-- The 3-month-performance if/elif chain. -/
def perfBand (p : ℚ) : ℕ × List Reason :=
  if p < -20 then (2, [.drop3m])
  else if p < -10 then (1, [.correction3m])
  else (0, [])

/-- The near-support check. -/
def supportBand (nearSupport : Bool) : ℕ × List Reason :=
  if nearSupport then (1, [.nearSupportLevel]) else (0, [])

/-- The embedded `classify_opportunity`: the source accumulates `score` and
`reasons` through the four band checks in order, then classifies; `none`
is the `return None` (score 0, or failed analysis). -/
def classify_opportunity (a : Analysis) : Option Opportunity :=
  if a.success then
    let b1 := rsiBand a.rsi
    let b2 := macdBand a.macdCrossover a.macdHistogram
    let b3 := perfBand a.perf3m
    let b4 := supportBand a.nearSupport
    let score := b1.1 + b2.1 + b3.1 + b4.1
    let reasons := b1.2 ++ b2.2 ++ b3.2 ++ b4.2
    if 5 ≤ score then some ⟨.excelente, score, reasons⟩
    else if 3 ≤ score then some ⟨.buena, score, reasons⟩
    else if 1 ≤ score then some ⟨.moderada, score, reasons⟩
    else none
  else none

/-- The scoring table exactly as the specification words it (mutually
exclusive RSI, MACD and performance bands), used to compare against the
code's accumulated score. -/
def specScore (a : Analysis) : ℕ :=
  (if a.rsi < 25 then 3
   else if 25 ≤ a.rsi ∧ a.rsi < 30 then 2
   else if 30 ≤ a.rsi ∧ a.rsi < 40 then 1 else 0)
  + (if a.macdCrossover = true ∧ 0 < a.macdHistogram then 2
     else if a.macdCrossover = true then 1 else 0)
  + (if a.perf3m < -20 then 2
     else if -20 ≤ a.perf3m ∧ a.perf3m < -10 then 1 else 0)
  + (if a.nearSupport = true then 1 else 0)

/-! ## `is_market_hours` (value_investment_monitor.py)

```python
try:
    ny_tz = pytz.timezone('America/New_York')
    now_ny = datetime.now(ny_tz)
    weekday = now_ny.weekday()
    if weekday >= 5:
        return False
    return 9 <= now_ny.hour < 16 or (now_ny.hour == 16 and now_ny.minute <= 30)
except:
    return True
```

`tzOk` models whether the `try` body runs without an exception; Python's
`weekday()` is 0 = Monday … 5 = Saturday, 6 = Sunday. -/
def is_market_hours (tzOk : Bool) (weekday hour minute : ℕ) : Bool :=
  if tzOk then
    if 5 ≤ weekday then false
    else (9 ≤ hour && hour < 16) || (hour == 16 && minute ≤ 30)
  else true

/-! ## `run_analysis` ranking (value_investment_monitor.py)

```python
opportunities.sort(key=lambda x: x['opportunity']['score'], reverse=True)
if opportunities:
    self.send_opportunity_alert(opportunities[:5])  # Top 5
```

Python's `list.sort` is stable also with `reverse=True` (the comparison is
reversed, not the list).  A stable descending sort is uniquely determined
by being a permutation, sorted, and score-class preserving; we embed it as
stable insertion. -/

structure ScoredOpp where
  symbol : String
  score : ℕ
deriving DecidableEq, Repr

/-- Insert `a` before the first element whose score is ≤ `a.score`
(elements already placed that tie with `a` came earlier in the original
list only when they were processed later — `foldr` below makes the order
work out to Python's stable descending sort). -/
def insertDesc (a : ScoredOpp) : List ScoredOpp → List ScoredOpp
  | [] => [a]
  | b :: t => if a.score < b.score then b :: insertDesc a t else a :: b :: t

/-- Stable sort by score descending, as `list.sort(key=score, reverse=True)`. -/
def sortByScoreDesc (l : List ScoredOpp) : List ScoredOpp :=
  l.foldr insertDesc []

/-- The list handed to `send_opportunity_alert`: sorted, top 5. -/
def run_analysis_report (opps : List ScoredOpp) : List ScoredOpp :=
  (sortByScoreDesc opps).take 5

/-! ## `check_rsi_alert` and `monitor_stocks` (rsi_monitor_github.py)

`get_stock_data` returns `None` on any fetch error or empty frame, so the
fetch capability is modelled as `Option (List ℚ)` per symbol.  Inside the
`try` of `check_rsi_alert` the only statement that can raise is an
`iloc[-1]`/indexing failure on an empty series — exactly when our
`calculate_rsi` returns `none`; the `except` turns it into a
`success=False` record.  `alert_sent` becomes true only when
`rsi < rsi_threshold` (an IEEE comparison, false on NaN) and the Telegram
send succeeds. -/

structure CheckResult where
  symbol : String
  success : Bool
  alertSent : Bool
deriving DecidableEq, Repr

/-- The embedded `check_rsi_alert` for one symbol, given that symbol's
fetch result and whether a Telegram send would succeed. -/
def check_rsi_alert (fetched : Option (List ℚ)) (threshold : ℚ)
    (sendOk : Bool) (symbol : String) : CheckResult :=
  match fetched with
  | none => ⟨symbol, false, false⟩
  | some ps =>
      match calculate_rsi ps 14 with
      | none => ⟨symbol, false, false⟩
      | some rsi => ⟨symbol, true, PF.lt rsi (PF.fin threshold) && sendOk⟩

/-- One evaluation round of `monitor_stocks`: the `for symbol in
stock_list` loop appends one `CheckResult` per symbol and never breaks. -/
def monitor_round (fetch : String → Option (List ℚ)) (threshold : ℚ)
    (sendOk : Bool) (stock_list : List String) : List CheckResult :=
  stock_list.map fun s => check_rsi_alert (fetch s) threshold sendOk s

/-- `successful = len([r for r in results if r['success']])`. -/
def successfulCount (results : List CheckResult) : ℕ :=
  (results.filter fun r => r.success).length

/-! ### The `while True` loop boundary

```python
while True:
    try:
        ...  # body
    except KeyboardInterrupt:
        logging.info(...)
        break
    except Exception as e:
        logging.error(...)
        time.sleep(300)  # Esperar 5 minutos antes de reintentar
```
-/

/-- How one execution of the loop body ends. -/
inductive BodyOutcome where
  | ok
  | err
  | interrupt
deriving DecidableEq, Repr

/-- What the loop does after one body execution. -/
inductive StepResult where
  | next (backoffSecs : ℕ)
  | stop
deriving DecidableEq, Repr

/-- The exception-handler boundary of `monitor_stocks`. -/
def monitor_step : BodyOutcome → StepResult
  | .interrupt => .stop
  | .err => .next 300
  | .ok => .next 0

/-- Running the loop over a finite prefix of body outcomes: `true` means
the `while True` loop is still running afterwards. -/
def loopRuns : List BodyOutcome → Bool
  | [] => true
  | o :: t =>
      match monitor_step o with
      | .stop => false
      | .next _ => loopRuns t

/-! ### The broken loop body of rsi_monitor_github.py (claim C10)

The module imports `yfinance, pandas, numpy, requests, time, datetime,
logging` — not `pytz` — and class `RSIMonitor` defines only the attributes
listed below.  The first statement of every loop-body iteration is
`if not self.is_market_open():`, whose attribute lookup raises
`AttributeError` before any symbol is touched; the generic handler then
sleeps 300 seconds. -/

/-- Top-level names bound in `rsi_monitor_github.py` by its imports. -/
def githubModuleImports : List String :=
  ["yf", "pd", "np", "requests", "time", "datetime", "logging"]

/-- The attributes defined on class `RSIMonitor` (methods plus the instance
attributes set in `__init__`). -/
def rsiMonitorAttrs : List String :=
  ["__init__", "calculate_rsi", "get_stock_data", "send_telegram_message",
   "check_rsi_alert", "monitor_stocks", "bot_token", "chat_id", "telegram_url"]

/-- Result of one attempted iteration of the `monitor_stocks` body in
`rsi_monitor_github.py`: either it raises at the very first statement
(attribute `is_market_open` missing) or it would go on to evaluate the
watch-list. -/
inductive GithubBodyResult where
  | raisedBeforeAnyEval
  | evaluated (results : List CheckResult)
deriving DecidableEq, Repr

/-- The loop body of `monitor_stocks` in `rsi_monitor_github.py`: the first
statement resolves `self.is_market_open`, so the body raises before any
evaluation whenever that attribute does not exist. -/
def github_loop_body (fetch : String → Option (List ℚ)) (threshold : ℚ)
    (sendOk : Bool) (stock_list : List String) : GithubBodyResult :=
  if "is_market_open" ∈ rsiMonitorAttrs then
    .evaluated (monitor_round fetch threshold sendOk stock_list)
  else
    .raisedBeforeAnyEval

/-- Cumulative observable effect of the github script's loop. -/
structure GithubLoopStats where
  iterations : ℕ
  symbolsEvaluated : ℕ
  alertsSent : ℕ
  sleptSeconds : ℕ
deriving DecidableEq, Repr

/-- One iteration of the `while True` loop in `rsi_monitor_github.py`:
a raising body is caught by `except Exception` and sleeps 300 s. -/
def github_loop_iter (fetch : String → Option (List ℚ)) (threshold : ℚ)
    (sendOk : Bool) (stock_list : List String) (s : GithubLoopStats) :
    GithubLoopStats :=
  match github_loop_body fetch threshold sendOk stock_list with
  | .raisedBeforeAnyEval =>
      { s with iterations := s.iterations + 1,
               sleptSeconds := s.sleptSeconds + 300 }
  | .evaluated results =>
      { s with iterations := s.iterations + 1,
               symbolsEvaluated := s.symbolsEvaluated + results.length,
               alertsSent := s.alertsSent +
                 (results.filter fun r => r.alertSent).length }

/-- `n` iterations of the github script's monitoring loop. -/
def github_loop (fetch : String → Option (List ℚ)) (threshold : ℚ)
    (sendOk : Bool) (stock_list : List String) : ℕ → GithubLoopStats
  | 0 => ⟨0, 0, 0, 0⟩
  | n + 1 => github_loop_iter fetch threshold sendOk stock_list
      (github_loop fetch threshold sendOk stock_list n)

/-! ## Theorems -/

/-- The if/elif RSI chain awards exactly the spec's mutually exclusive
band delta. -/
lemma rsiBand_fst (r : ℚ) :
    (rsiBand r).1 = (if r < 25 then 3
      else if 25 ≤ r ∧ r < 30 then 2
      else if 30 ≤ r ∧ r < 40 then 1 else 0 : ℕ) := by
  by_cases h1 : r < 25
  · simp [rsiBand, h1]
  · by_cases h2 : r < 30
    · simp [rsiBand, h1, h2, le_of_not_lt h1]
    · by_cases h3 : r < 40
      · simp [rsiBand, h1, h2, h3, le_of_not_lt h2]
      · simp [rsiBand, h1, h2, h3]

/-- The if/elif MACD chain awards exactly the spec's band delta. -/
lemma macdBand_fst (c : Bool) (h : ℚ) :
    (macdBand c h).1 = (if c = true ∧ 0 < h then 2
      else if c = true then 1 else 0 : ℕ) := by
  cases c <;> by_cases hh : 0 < h <;> simp [macdBand, hh]

/-- The if/elif 3-month-performance chain awards exactly the spec's band
delta. -/
lemma perfBand_fst (p : ℚ) :
    (perfBand p).1 = (if p < -20 then 2
      else if -20 ≤ p ∧ p < -10 then 1 else 0 : ℕ) := by
  by_cases h1 : p < -20
  · simp [perfBand, h1]
  · by_cases h2 : p < -10
    · simp [perfBand, h1, h2, le_of_not_lt h1]
    · simp [perfBand, h1, h2]

lemma supportBand_fst (ns : Bool) :
    (supportBand ns).1 = (if ns = true then 1 else 0 : ℕ) := by
  cases ns <;> rfl

/-- The sequentially accumulated score of `classify_opportunity` equals the
specification's table of mutually exclusive band deltas. -/
lemma classify_score_eq (a : Analysis) :
    (rsiBand a.rsi).1 + (macdBand a.macdCrossover a.macdHistogram).1
      + (perfBand a.perf3m).1 + (supportBand a.nearSupport).1 = specScore a := by
  rw [specScore, rsiBand_fst, macdBand_fst, perfBand_fst, supportBand_fst]

/-- C1: for every successfully analysed input, `classify_opportunity`
scores exactly the sum of the matching mutually exclusive band deltas
(RSI < 25 ↦ +3, 25 ≤ RSI < 30 ↦ +2, 30 ≤ RSI < 40 ↦ +1; crossover with
positive histogram ↦ +2, crossover otherwise ↦ +1; perf3m < −20 ↦ +2,
−20 ≤ perf3m < −10 ↦ +1; near support ↦ +1); the tier is EXCELENTE iff
score ≥ 5, BUENA iff 3 ≤ score < 5, MODERADA iff 1 ≤ score < 3, and no
opportunity is returned iff the score is 0.  The documented scenario
(RSI = 22.5, crossover with positive histogram, perf3m = −25, near
support) yields score 8, tier EXCELENTE and the four reasons in source
order. -/
theorem classify_opportunity_spec (a : Analysis) (hs : a.success = true) :
    (∀ o, classify_opportunity a = some o →
        o.score = specScore a ∧
        (o.level = Level.excelente ↔ 5 ≤ specScore a) ∧
        (o.level = Level.buena ↔ 3 ≤ specScore a ∧ specScore a < 5) ∧
        (o.level = Level.moderada ↔ 1 ≤ specScore a ∧ specScore a < 3)) ∧
    (classify_opportunity a = none ↔ specScore a = 0) ∧
    classify_opportunity ⟨true, 45/2, true, 1, -25, true⟩ =
      some ⟨Level.excelente, 8,
        [Reason.rsiExtremelyLow, Reason.macdBullCross, Reason.drop3m,
         Reason.nearSupportLevel]⟩ := by
  have hscore := classify_score_eq a
  refine ⟨?_, ?_, ?_⟩
  · intro o ho
    simp only [classify_opportunity, hs, if_true] at ho
    rw [← hscore]
    split_ifs at ho with h5 h3 h1 <;>
      (simp only [Option.some.injEq] at ho
       subst ho
       refine ⟨rfl, ?_, ?_, ?_⟩ <;> constructor <;> intro hx <;>
         first
           | rfl
           | omega
           | (exfalso; simp at hx))
  · rw [← hscore]
    simp only [classify_opportunity, hs, if_true]
    split_ifs with h5 h3 h1 <;> simp <;> omega
  · simp only [classify_opportunity, rsiBand, macdBand, perfBand, supportBand]
    norm_num

/-- C1 witness: the documented scenario instantiates the theorem. -/
theorem classify_opportunity_spec_witness :
    classify_opportunity ⟨true, 45/2, true, 1, -25, true⟩ =
      some ⟨Level.excelente, 8,
        [Reason.rsiExtremelyLow, Reason.macdBullCross, Reason.drop3m,
         Reason.nearSupportLevel]⟩ :=
  (classify_opportunity_spec ⟨true, 45/2, true, 1, -25, true⟩ rfl).2.2

/-- C5: the market clock is closed all day on Saturday (weekday 5) and
Sunday (weekday 6), and open on any weekday at 10:00 local time. -/
theorem is_market_hours_weekend_and_weekday :
    (∀ hour minute, is_market_hours true 5 hour minute = false) ∧
    (∀ hour minute, is_market_hours true 6 hour minute = false) ∧
    (∀ weekday, weekday < 5 → ∀ minute,
      is_market_hours true weekday 10 minute = true) := by
  refine ⟨fun hour minute => by simp [is_market_hours],
          fun hour minute => by simp [is_market_hours],
          fun weekday hw minute => ?_⟩
  simp [is_market_hours]
  omega

/-- C5 witness: Saturday 10:00 is closed; Monday (weekday 0) 10:00 is open. -/
theorem is_market_hours_witness :
    is_market_hours true 5 10 0 = false ∧ is_market_hours true 0 10 0 = true :=
  ⟨is_market_hours_weekend_and_weekday.1 10 0,
   is_market_hours_weekend_and_weekday.2.2 0 (by decide) 0⟩

/-- C8: when the body of the `try` fails (e.g. timezone data unavailable),
`is_market_hours` returns `True` — it fails open, never closed. -/
theorem is_market_hours_fails_open :
    ∀ weekday hour minute, is_market_hours false weekday hour minute = true := by
  intro weekday hour minute
  simp [is_market_hours]

/-- C7: an unexpected error in the loop body yields a 300-second backoff
and the loop continues; the only body outcome that stops the loop is
`KeyboardInterrupt`, so the loop is still running after any finite
sequence of outcomes iff no interrupt occurred. -/
theorem monitor_loop_error_backoff :
    monitor_step .err = .next 300 ∧
    (∀ o, monitor_step o = .stop ↔ o = .interrupt) ∧
    (∀ outcomes : List BodyOutcome,
      loopRuns outcomes = true ↔ BodyOutcome.interrupt ∉ outcomes) := by
  refine ⟨rfl, fun o => by cases o <;> simp [monitor_step], fun outcomes => ?_⟩
  induction outcomes with
  | nil => simp [loopRuns]
  | cons o t ih => cases o <;> simp [loopRuns, monitor_step, ih]

/-- C10: `rsi_monitor_github.py` defines no `is_market_open` attribute and
never imports `pytz`, so every iteration of its `monitor_stocks` loop
raises before evaluating any symbol; after `n` iterations the handler has
slept `300·n` seconds and no symbol was evaluated, no alert sent. -/
theorem github_loop_never_evaluates :
    ("is_market_open" ∈ rsiMonitorAttrs → False) ∧
    ("pytz" ∈ githubModuleImports → False) ∧
    (∀ fetch threshold sendOk stock_list n,
      github_loop fetch threshold sendOk stock_list n =
        ⟨n, 0, 0, 300 * n⟩) := by
  refine ⟨by decide, by decide, fun fetch threshold sendOk stock_list n => ?_⟩
  induction n with
  | zero => rfl
  | succ m ih =>
      have hbody : github_loop_body fetch threshold sendOk stock_list =
          GithubBodyResult.raisedBeforeAnyEval := by
        rw [github_loop_body, if_neg (by decide)]
      simp only [github_loop, ih, github_loop_iter, hbody]
      simp only [GithubLoopStats.mk.injEq, Nat.mul_succ]

/-- `insertDesc` permutes `a` into the list. -/
lemma insertDesc_perm (a : ScoredOpp) (l : List ScoredOpp) :
    List.Perm (insertDesc a l) (a :: l) := by
  induction l with
  | nil => rfl
  | cons b t ih =>
      rw [insertDesc]
      split_ifs
      · exact ((ih.cons b).trans (List.Perm.swap a b t)).symm.symm
      · rfl

/-- `sortByScoreDesc` is a permutation of its input. -/
lemma sortByScoreDesc_perm (l : List ScoredOpp) :
    List.Perm (sortByScoreDesc l) l := by
  induction l with
  | nil => rfl
  | cons a t ih =>
      exact (insertDesc_perm a (sortByScoreDesc t)).trans (ih.cons a)

/-- Inserting preserves descending sortedness. -/
lemma insertDesc_pairwise (a : ScoredOpp) (l : List ScoredOpp)
    (hl : l.Pairwise fun x y => y.score ≤ x.score) :
    (insertDesc a l).Pairwise fun x y => y.score ≤ x.score := by
  induction l with
  | nil => simp [insertDesc]
  | cons b t ih =>
      rw [List.pairwise_cons] at hl
      rw [insertDesc]
      split_ifs with hab
      · rw [List.pairwise_cons]
        refine ⟨fun x hx => ?_, ih hl.2⟩
        rcases List.mem_cons.mp ((insertDesc_perm a t).mem_iff.mp hx) with hxa | hxt
        · subst hxa; omega
        · exact hl.1 x hxt
      · rw [List.pairwise_cons]
        refine ⟨fun x hx => ?_, List.pairwise_cons.mpr hl⟩
        rcases List.mem_cons.mp hx with hxb | hxt
        · subst hxb; omega
        · have := hl.1 x hxt; omega

/-- The descending insertion sort is sorted. -/
lemma sortByScoreDesc_pairwise (l : List ScoredOpp) :
    (sortByScoreDesc l).Pairwise fun x y => y.score ≤ x.score := by
  induction l with
  | nil => simp [sortByScoreDesc]
  | cons a t ih => exact insertDesc_pairwise a (sortByScoreDesc t) ih

/-- Stability of insertion, phrased per score class: the elements of a
given score come out in their original relative order. -/
lemma insertDesc_filter_score (s : ℕ) (a : ScoredOpp) (l : List ScoredOpp) :
    (insertDesc a l).filter (fun x => x.score == s) =
      if a.score = s then a :: l.filter (fun x => x.score == s)
      else l.filter (fun x => x.score == s) := by
  induction l with
  | nil =>
      by_cases has : a.score = s <;> simp [insertDesc, List.filter_cons, has]
  | cons b t ih =>
      rw [insertDesc]
      by_cases hab : a.score < b.score
      · rw [if_pos hab]
        by_cases has : a.score = s
        · have hbs : ¬(b.score = s) := by omega
          simp [List.filter_cons, has, hbs, ih]
        · simp [List.filter_cons, has, ih]
      · rw [if_neg hab]
        by_cases has : a.score = s <;> simp [List.filter_cons, has]

/-- Stability of the full sort per score class. -/
lemma sortByScoreDesc_filter_score (s : ℕ) (l : List ScoredOpp) :
    (sortByScoreDesc l).filter (fun x => x.score == s) =
      l.filter (fun x => x.score == s) := by
  induction l with
  | nil => rfl
  | cons a t ih =>
      show (insertDesc a (sortByScoreDesc t)).filter _ = _
      rw [insertDesc_filter_score, List.filter_cons]
      by_cases has : a.score = s <;> simp [has, ih]

/-- C3: the reported list is the stable descending sort of the discovered
opportunities cut to the top 5: it is sorted by score descending, within
each score class the original watch-list order is preserved, the sort is a
permutation of the input, and at most 5 entries are notified. -/
theorem run_analysis_report_spec (opps : List ScoredOpp) :
    run_analysis_report opps = (sortByScoreDesc opps).take 5 ∧
    (sortByScoreDesc opps).Pairwise (fun x y => y.score ≤ x.score) ∧
    (∀ s, (sortByScoreDesc opps).filter (fun x => x.score == s) =
      opps.filter (fun x => x.score == s)) ∧
    List.Perm (sortByScoreDesc opps) opps ∧
    (run_analysis_report opps).length ≤ 5 := by
  refine ⟨rfl, sortByScoreDesc_pairwise opps,
    fun s => sortByScoreDesc_filter_score s opps, sortByScoreDesc_perm opps, ?_⟩
  exact (List.length_take 5 (sortByScoreDesc opps)).le.trans (min_le_left _ _)

/-- The example watch-list for the 4-of-5 scenario. -/
def exStocks : List String := ["AAPL", "MSFT", "GOOGL", "AMZN", "TSLA"]

/-- A fetch capability that fails for exactly one symbol. -/
def exFetch : String → Option (List ℚ) :=
  fun s => if s = "GOOGL" then none else some [1, 2]

/-- C6: every evaluation round produces one result per watch-list symbol,
the result at position `i` depends only on that symbol's own fetch (so a
failure for one symbol cannot prevent the evaluation of the others), and
the reported successful count is exactly the number of symbols whose
evaluation succeeded; with one failing fetch in a 5-symbol list the round
reports 4 of 5 successful. -/
theorem monitor_round_isolation :
    (∀ (fetch : String → Option (List ℚ)) (threshold : ℚ) (sendOk : Bool)
        (stock_list : List String),
      (monitor_round fetch threshold sendOk stock_list).length =
          stock_list.length ∧
      (∀ i : ℕ, (monitor_round fetch threshold sendOk stock_list)[i]? =
          Option.map (fun s => check_rsi_alert (fetch s) threshold sendOk s)
            stock_list[i]?) ∧
      successfulCount (monitor_round fetch threshold sendOk stock_list) =
        (stock_list.filter
          fun s => (check_rsi_alert (fetch s) threshold sendOk s).success).length) ∧
    exStocks.length = 5 ∧
    successfulCount (monitor_round exFetch 30 true exStocks) = 4 := by
  refine ⟨fun fetch threshold sendOk stock_list => ⟨?_, ?_, ?_⟩, rfl, by decide⟩
  · exact List.length_map _ _
  · intro i
    exact List.getElem?_map
      (fun s => check_rsi_alert (fetch s) threshold sendOk s) stock_list i
  · rw [monitor_round, successfulCount, List.filter_map, List.length_map]
    rfl

/-- `ewmAux` preserves length. -/
lemma ewmAux_length : ∀ (xs : List ℚ) (β num den : ℚ),
    (ewmAux β num den xs).length = xs.length := by
  intro xs
  induction xs with
  | nil => intro β num den; rfl
  | cons x t ih =>
      intro β num den
      rw [ewmAux]
      simp [ih]

/-- `ewm(span).mean()` preserves length. -/
lemma ewmMean_length (span : ℕ) (xs : List ℚ) :
    (ewmMean span xs).length = xs.length :=
  ewmAux_length xs _ 0 0

/-- The last entry of a zip of equally long lists is the combination of
the two last entries. -/
lemma getLast?_zipWith {α β γ : Type} (f : α → β → γ) :
    ∀ (l1 : List α) (l2 : List β), l1.length = l2.length →
      (List.zipWith f l1 l2).getLast? =
        match l1.getLast?, l2.getLast? with
        | some a, some b => some (f a b)
        | _, _ => none := by
  intro l1
  induction l1 with
  | nil =>
      intro l2 h
      cases l2 with
      | nil => rfl
      | cons b t2 => simp at h
  | cons a t1 ih =>
      intro l2 h
      cases l2 with
      | nil => simp at h
      | cons b t2 =>
          cases t1 with
          | nil =>
              cases t2 with
              | nil => rfl
              | cons c t2' => simp at h
          | cons c t1' =>
              cases t2 with
              | nil => simp at h
              | cons d t2' =>
                  have h' : (c :: t1').length = (d :: t2').length := by
                    simpa using h
                  rw [List.zipWith_cons_cons, List.zipWith_cons_cons]
                  rw [List.getLast?_cons_cons, List.getLast?_cons_cons,
                    List.getLast?_cons_cons]
                  rw [← List.zipWith_cons_cons]
                  exact ih (d :: t2') h'

/-- C9: whenever `calculate_macd` returns, the returned histogram equals
the returned MACD line minus the returned signal line exactly, and the
crossover flag is true exactly when the MACD line exceeds the signal line
at the latest bar. -/
theorem calculate_macd_spec (ps : List ℚ) (fast slow signal : ℕ)
    (r : MacdResult) (h : calculate_macd ps fast slow signal = some r) :
    r.histogram = r.macd - r.signal ∧
    (r.crossover = true ↔ r.signal < r.macd) := by
  simp only [calculate_macd] at h
  have hlen : (List.zipWith (· - ·) (ewmMean fast ps) (ewmMean slow ps)).length =
      (ewmMean signal
        (List.zipWith (· - ·) (ewmMean fast ps) (ewmMean slow ps))).length := by
    rw [ewmMean_length]
  have hz := getLast?_zipWith (· - ·)
    (List.zipWith (· - ·) (ewmMean fast ps) (ewmMean slow ps))
    (ewmMean signal (List.zipWith (· - ·) (ewmMean fast ps) (ewmMean slow ps)))
    hlen
  cases hm : (List.zipWith (· - ·) (ewmMean fast ps) (ewmMean slow ps)).getLast? with
  | none =>
      rw [hm] at h hz
      rw [hz] at h
      exact Option.noConfusion h
  | some m =>
      cases hsg : (ewmMean signal
          (List.zipWith (· - ·) (ewmMean fast ps) (ewmMean slow ps))).getLast? with
      | none =>
          rw [hm, hsg] at h hz
          rw [hz] at h
          exact Option.noConfusion h
      | some s =>
          rw [hm, hsg] at h hz
          rw [hz] at h
          simp only [Option.some.injEq] at h
          subst h
          exact ⟨rfl, decide_eq_true_iff⟩

/-- The concrete MACD result for the constant series `[0]`. -/
def macdExample : MacdResult := ⟨0, 0, 0, false⟩

/-- C9 witness: the theorem applied to the series `[0]`. -/
theorem calculate_macd_spec_witness :
    macdExample.histogram = macdExample.macd - macdExample.signal ∧
    (macdExample.crossover = true ↔ macdExample.signal < macdExample.macd) :=
  calculate_macd_spec [0] 12 26 9 macdExample (by
    simp [calculate_macd, ewmMean, ewmAux, macdExample])

/-- `prices.diff()` preserves length. -/
lemma deltas_length (ps : List ℚ) : (deltas ps).length = ps.length := by
  cases ps with
  | nil => rfl
  | cons a t =>
      simp [deltas, List.length_zipWith]

lemma gains_length (ps : List ℚ) : (gains ps).length = ps.length := by
  rw [gains, List.length_map, deltas_length]

lemma losses_length (ps : List ℚ) : (losses ps).length = ps.length := by
  rw [losses, List.length_map, deltas_length]

lemma rollingMean_length (w : ℕ) (xs : List ℚ) :
    (rollingMean w xs).length = xs.length := by
  rw [rollingMean, List.length_map, List.length_range]

/-- The final cell of a rolling mean: NaN when no full window fits,
otherwise the mean of the trailing window. -/
lemma rollingMean_getLast (w : ℕ) (xs : List ℚ) (h : xs ≠ []) :
    (rollingMean w xs).getLast? =
      some (if w ≤ xs.length
            then PF.fin ((windowAt w xs (xs.length - 1)).sum / (w : ℚ))
            else PF.nan) := by
  obtain ⟨m, hm⟩ : ∃ m, xs.length = m + 1 := by
    cases hx : xs.length with
    | zero => exact absurd (List.length_eq_zero.mp hx) h
    | succ m => exact ⟨m, rfl⟩
  rw [rollingMean, hm, List.range_succ, List.map_append, List.map_cons,
    List.map_nil, List.getLast?_concat]
  norm_num

/-- The final RSI cell, written out: both rolling means are taken at the
last index, divided, and passed through `100 − 100/(1+rs)`. -/
lemma calculate_rsi_eq_getLast (ps : List ℚ) (h : ps ≠ []) (period : ℕ) :
    calculate_rsi ps period =
      some (PF.sub (PF.fin 100) (PF.div (PF.fin 100) (PF.add (PF.fin 1)
        (PF.div
          (if period ≤ ps.length
           then PF.fin ((windowAt period (gains ps) (ps.length - 1)).sum / (period : ℚ))
           else PF.nan)
          (if period ≤ ps.length
           then PF.fin ((windowAt period (losses ps) (ps.length - 1)).sum / (period : ℚ))
           else PF.nan))))) := by
  have hlen0 : ps.length ≠ 0 := by simpa [List.length_eq_zero] using h
  have hgne : gains ps ≠ [] := by
    intro hh
    exact hlen0 (by rw [← gains_length ps, hh, List.length_nil])
  have hlne : losses ps ≠ [] := by
    intro hh
    exact hlen0 (by rw [← losses_length ps, hh, List.length_nil])
  simp only [calculate_rsi]
  rw [List.getLast?_map]
  rw [getLast?_zipWith PF.div _ _
    (by rw [rollingMean_length, rollingMean_length, gains_length, losses_length])]
  rw [rollingMean_getLast period (gains ps) hgne,
    rollingMean_getLast period (losses ps) hlne,
    gains_length, losses_length]
  rfl

/-- C2 (amended): for every nonempty series shorter than `period` bars,
`calculate_rsi` silently returns NaN — no `InsufficientData` error exists
in the code. -/
theorem calculate_rsi_short_returns_nan (ps : List ℚ) (period : ℕ)
    (hne : ps ≠ []) (hshort : ps.length < period) :
    calculate_rsi ps period = some PF.nan := by
  rw [calculate_rsi_eq_getLast ps hne period,
    if_neg (by omega), if_neg (by omega)]
  rfl

/-- C2 amended-theorem witness: a 2-bar series under the default period 14. -/
theorem calculate_rsi_short_returns_nan_witness :
    calculate_rsi [1, 2] 14 = some PF.nan :=
  calculate_rsi_short_returns_nan [1, 2] 14 (by simp) (by simp)

/-- In a strictly increasing series every pairwise gain is positive. -/
lemma gains_tail_pos :
    ∀ (ps : List ℚ), List.Chain' (· < ·) ps →
      ∀ x ∈ (List.zipWith (fun a b => PF.fin (b - a)) ps ps.tail).map gainOf,
        0 < x := by
  intro ps
  induction ps with
  | nil => intro _ x hx; simp at hx
  | cons a t ih =>
      intro hc x hx
      cases t with
      | nil => simp at hx
      | cons b t' =>
          rw [List.chain'_cons] at hc
          simp only [List.tail_cons, List.zipWith_cons_cons, List.map_cons] at hx
          rcases List.mem_cons.mp hx with hx1 | hx2
          · subst hx1
            have hab : (0 : ℚ) < b - a := sub_pos.mpr hc.1
            show 0 < gainOf (PF.fin (b - a))
            rw [gainOf, if_pos hab]
            exact hab
          · exact ih hc.2 x (by simpa using hx2)

/-- In a strictly increasing series every pairwise loss is zero. -/
lemma losses_tail_zero :
    ∀ (ps : List ℚ), List.Chain' (· < ·) ps →
      ∀ x ∈ (List.zipWith (fun a b => PF.fin (b - a)) ps ps.tail).map lossOf,
        x = 0 := by
  intro ps
  induction ps with
  | nil => intro _ x hx; simp at hx
  | cons a t ih =>
      intro hc x hx
      cases t with
      | nil => simp at hx
      | cons b t' =>
          rw [List.chain'_cons] at hc
          simp only [List.tail_cons, List.zipWith_cons_cons, List.map_cons] at hx
          rcases List.mem_cons.mp hx with hx1 | hx2
          · subst hx1
            have hab : ¬(b - a < 0) := by
              have := sub_pos.mpr hc.1; linarith
            show lossOf (PF.fin (b - a)) = 0
            rw [lossOf, if_neg hab]
          · exact ih hc.2 x (by simpa using hx2)

/-- Every cell of `losses` is zero for a strictly increasing series. -/
lemma losses_eq_zero (ps : List ℚ) (hc : List.Chain' (· < ·) ps) :
    ∀ x ∈ losses ps, x = 0 := by
  intro x hx
  cases ps with
  | nil => simp [losses, deltas] at hx
  | cons a t =>
      simp only [losses, deltas, List.map_cons] at hx
      rcases List.mem_cons.mp hx with h1 | h2
      · subst h1; rfl
      · exact losses_tail_zero (a :: t) hc x (by simpa using h2)

/-- Shared core: for any strictly increasing series with at least two bars
and a full window available, the final RSI cell is exactly 100 (the mean
loss is 0, `rs` becomes +inf, and `100 − 100/(1+inf)` is `100 − 0`). -/
lemma calculate_rsi_mono_core (ps : List ℚ) (period : ℕ) (hp : 0 < period)
    (hlen : period ≤ ps.length) (h2 : 2 ≤ ps.length)
    (hc : List.Chain' (· < ·) ps) :
    calculate_rsi ps period = some (PF.fin 100) := by
  have hne : ps ≠ [] := by
    intro hh; rw [hh] at h2; simp at h2
  rw [calculate_rsi_eq_getLast ps hne period, if_pos hlen, if_pos hlen]
  have hlz : (windowAt period (losses ps) (ps.length - 1)).sum = 0 := by
    apply List.sum_eq_zero
    intro x hx
    exact losses_eq_zero ps hc x
      (List.mem_of_mem_take (List.mem_of_mem_drop hx))
  have hgpos : 0 < (windowAt period (gains ps) (ps.length - 1)).sum := by
    have hglen : (gains ps).length = ps.length := gains_length ps
    have hwin : windowAt period (gains ps) (ps.length - 1) =
        (gains ps).drop (ps.length - period) := by
      rw [windowAt]
      have h1 : ps.length - 1 + 1 = ps.length := by omega
      rw [h1, ← hglen, List.take_length]
    rw [hwin]
    obtain ⟨a, t, rfl⟩ : ∃ a t, ps = a :: t := by
      cases ps with
      | nil => simp at h2
      | cons a t => exact ⟨a, t, rfl⟩
    have hshape : gains (a :: t) =
        0 :: (List.zipWith (fun a b => PF.fin (b - a)) (a :: t) t).map gainOf := by
      rfl
    have htlen : 1 ≤ t.length := by
      simp only [List.length_cons] at h2; omega
    have hrestlen :
        ((List.zipWith (fun a b => PF.fin (b - a)) (a :: t) t).map gainOf).length
          = t.length := by
      simp [List.length_zipWith]
    have hrestpos :
        ∀ x ∈ (List.zipWith (fun a b => PF.fin (b - a)) (a :: t) t).map gainOf,
          0 < x := by
      intro x hx
      exact gains_tail_pos (a :: t) hc x (by simpa using hx)
    rcases Nat.eq_zero_or_pos ((a :: t).length - period) with hk | hk
    · rw [hk, List.drop_zero, hshape, List.sum_cons]
      have hrne :
          (List.zipWith (fun a b => PF.fin (b - a)) (a :: t) t).map gainOf ≠ [] := by
        intro hh
        rw [hh] at hrestlen
        simp at hrestlen
        omega
      have := List.sum_pos _ hrestpos hrne
      linarith
    · obtain ⟨k, hk'⟩ : ∃ k, (a :: t).length - period = k + 1 :=
        ⟨_, (Nat.succ_pred_eq_of_pos hk).symm⟩
      rw [hk', hshape, List.drop_succ_cons]
      apply List.sum_pos
      · intro x hx
        exact hrestpos x (List.mem_of_mem_drop hx)
      · intro hh
        have := congrArg List.length hh
        rw [List.length_drop, hrestlen, List.length_nil] at this
        simp only [List.length_cons] at hk' hlen
        omega
  rw [hlz, zero_div]
  have hq : 0 < (windowAt period (gains ps) (ps.length - 1)).sum / (period : ℚ) :=
    div_pos hgpos (by exact_mod_cast hp)
  rw [PF.div, if_pos rfl, if_neg hq.ne', if_pos hq]
  show some (PF.fin (100 - 0)) = some (PF.fin 100)
  simp

/-- C4: for every strictly increasing price series with at least
`period + 1` bars (so there are no losses at all), `calculate_rsi` returns
exactly 100, not NaN: in IEEE arithmetic `rs = meanGain/0 = +inf` and
`100 − 100/(1 + inf) = 100 − 0 = 100`. -/
theorem calculate_rsi_monotone_100 (ps : List ℚ) (period : ℕ)
    (hp : 0 < period) (hlen : period + 1 ≤ ps.length)
    (hc : List.Chain' (· < ·) ps) :
    calculate_rsi ps period = some (PF.fin 100) :=
  calculate_rsi_mono_core ps period hp (by omega) (by omega) hc

/-- C4 witness: the strictly increasing series `[1, 2]` with period 1. -/
theorem calculate_rsi_monotone_100_witness :
    calculate_rsi [1, 2] 1 = some (PF.fin 100) :=
  calculate_rsi_monotone_100 [1, 2] 1 (by norm_num) (by simp)
    (by norm_num [List.chain'_cons, List.chain'_singleton])

/-- C2 counterexample: the strictly increasing 2-bar series `[1, 2]` has
fewer than `period + 1 = 3` bars, yet `calculate_rsi` returns the numeric
value 100 rather than failing with any error. -/
theorem calculate_rsi_insufficient_counterexample :
    ([1, 2] : List ℚ).length < 2 + 1 ∧
    calculate_rsi [1, 2] 2 = some (PF.fin 100) :=
  ⟨by simp,
   calculate_rsi_mono_core [1, 2] 2 (by norm_num) (by simp) (by simp)
     (by norm_num [List.chain'_cons, List.chain'_singleton])⟩

end RsiMonitor
